import Mathlib

/-!
Shallow embedding of the snapshot-comparison and report-formatting core of
`app/report.py` (the `s3-tools` repository), together with proofs of the
specification's claims about it.

Modelling conventions:
* A Python snapshot dict is a `Snapshot` record; keys that the code may find
  missing (`metadata`, `metadata.start`, `buckets`, and a bucket entry's
  `files`/`bytes` fields) are `Option`-valued.  A bucket mapping is an
  association list from bucket name to entry; `dict.get(k, default)` becomes
  `List.lookup` plus `Option.getD`.
* Timestamps are modelled as already-parsed integer time values: the code
  only ever subtracts two parsed timestamps, so `datetime.fromisoformat`
  and timedeltas are represented by `Int`.
* Python's `KeyError` on a missing mandatory key becomes `Option.none` as
  the result of `compare_snapshots`.
* The iteration order of the Python `set` union is unspecified; the
  embedding fixes one concrete enumeration of the union of key lists
  (`uniq`, which keeps the last occurrence).  Every property proved below
  is insensitive to the enumeration order (key sets, per-key values, sums).
* Counts are `Int` (Python integers are unbounded).
-/

namespace S3Tools

/-- One bucket's entry inside a snapshot's `buckets` mapping.  The Python
dict may lack the `files` or the `bytes` key, hence both are `Option`. -/
structure BucketEntry where
  files : Option Int
  bytes : Option Int
  deriving DecidableEq

/-- The `buckets` mapping of a snapshot: bucket name to entry. -/
abbrev Buckets := List (String × BucketEntry)

/-- Snapshot metadata.  `compare_snapshots` reads only `start`; the
`version` and `end` keys are never consulted and are omitted.  A missing
`start` key is `none`; a present one is an already-parsed timestamp. -/
structure Metadata where
  start : Option Int
  deriving DecidableEq

/-- A snapshot as loaded from JSON: both top-level keys may be absent. -/
structure Snapshot where
  metadata : Option Metadata
  buckets : Option Buckets
  deriving DecidableEq

/-- One bucket's entry in the record built by `compare_snapshots`. -/
structure DeltaBucket where
  files : Int
  bytes : Int
  d_files : Int
  d_bytes : Int
  deriving DecidableEq

/-- The `metadata` part of the record built by `compare_snapshots`. -/
structure DeltaMetadata where
  now : Int
  delta : Int
  total_files : Int
  total_bytes : Int
  total_d_files : Int
  total_d_bytes : Int
  deriving DecidableEq

/-- The record built by `compare_snapshots`. -/
structure DeltaRecord where
  metadata : DeltaMetadata
  buckets : List (String × DeltaBucket)
  deriving DecidableEq

/-- `d.get(k)` on an association list modelling a Python dict: the value at
the first occurrence of the key, or `none` when the key is absent. -/
def dget {β : Type} : List (String × β) → String → Option β
  | [], _ => none
  | (k, v) :: t, a => if a = k then some v else dget t a

/-- `previous.get("metadata", ...).get("start", ...)`-style access to the
start timestamp: `none` when `metadata` or `metadata.start` is missing. -/
def snapshot_start (s : Snapshot) : Option Int :=
  s.metadata.bind Metadata.start

/-- `d.get(name, dflt).get("files", 0)` where `o = d.get(name)`:
a missing entry or a missing `files` key defaults to `0`. -/
def entry_files (o : Option BucketEntry) : Int :=
  (o.bind BucketEntry.files).getD 0

/-- `d.get(name, dflt).get("bytes", 0)`: defaults to `0` as above. -/
def entry_bytes (o : Option BucketEntry) : Int :=
  (o.bind BucketEntry.bytes).getD 0

/-- The per-bucket record the loop body of `compare_snapshots` stores in
`data["buckets"][name]`: current values and current-minus-previous deltas,
with all absent data defaulted to zero. -/
def row_for (cb pb : Buckets) (name : String) : DeltaBucket :=
  { files := entry_files (dget cb name)
    bytes := entry_bytes (dget cb name)
    d_files := entry_files (dget cb name) - entry_files (dget pb name)
    d_bytes := entry_bytes (dget cb name) - entry_bytes (dget pb name) }

/-- One iteration of the `for name in ...` loop of `compare_snapshots`:
store the per-bucket record and accumulate the four running totals. -/
def step (cb pb : Buckets) (acc : DeltaRecord) (name : String) : DeltaRecord :=
  { metadata := { acc.metadata with
      total_files := acc.metadata.total_files + (row_for cb pb name).files
      total_bytes := acc.metadata.total_bytes + (row_for cb pb name).bytes
      total_d_files := acc.metadata.total_d_files + (row_for cb pb name).d_files
      total_d_bytes := acc.metadata.total_d_bytes + (row_for cb pb name).d_bytes }
    buckets := acc.buckets ++ [(name, row_for cb pb name)] }

/-- Duplicate removal, fixing one concrete enumeration of the Python set
`set(current["buckets"]) | set(previous.get("buckets", ...))`. -/
def uniq : List String → List String
  | [] => []
  | a :: l => if a ∈ l then uniq l else a :: uniq l

/-- The union of the two snapshots' bucket-name sets, as a duplicate-free
list. -/
def union_keys (cb pb : Buckets) : List String :=
  uniq (cb.map Prod.fst ++ pb.map Prod.fst)

/-- The empty previous snapshot (`previous = dict()` in the caller). -/
def empty_snapshot : Snapshot :=
  { metadata := none, buckets := none }

/-- Embedding of `compare_snapshots(current, previous)`.

The Python function raises `KeyError` exactly when `current` lacks
`metadata`, `metadata["start"]`, or `buckets` (the only subscript
accesses — everything on `previous` uses `.get` with a default); this is
modelled by returning `none`.  Otherwise it iterates over the union of the
bucket-name sets, writing one per-bucket record and accumulating totals,
and stores `now - earlier` as the time delta, with `earlier` defaulting to
`now` when `previous` has no start timestamp. -/
def compare_snapshots (current previous : Snapshot) : Option DeltaRecord :=
  match snapshot_start current, current.buckets with
  | some now, some cb =>
    let pb : Buckets := previous.buckets.getD []
    let earlier : Int := (snapshot_start previous).getD now
    some ((union_keys cb pb).foldl (step cb pb)
      ⟨⟨now, now - earlier, 0, 0, 0, 0⟩, []⟩)
  | _, _ => none

/-- Spec-side helper: the bucket-name list of a snapshot (empty when the
`buckets` key is absent). -/
def bucket_names (s : Snapshot) : List String :=
  (s.buckets.getD []).map Prod.fst

/-- Spec-side helper: a snapshot's `files` count for a bucket, with every
missing level defaulted to `0`. -/
def bucket_files (s : Snapshot) (name : String) : Int :=
  entry_files (dget (s.buckets.getD []) name)

/-- Spec-side helper: a snapshot's `bytes` count for a bucket, with every
missing level defaulted to `0`. -/
def bucket_bytes (s : Snapshot) (name : String) : Int :=
  entry_bytes (dget (s.buckets.getD []) name)

theorem mem_uniq {a : String} : ∀ {l : List String}, a ∈ uniq l ↔ a ∈ l := by
  intro l
  induction l with
  | nil => simp [uniq]
  | cons b t ih =>
    by_cases hb : b ∈ t
    · rw [uniq, if_pos hb, ih]
      constructor
      · exact fun h => List.mem_cons_of_mem _ h
      · intro h
        rcases List.mem_cons.mp h with rfl | h2
        · exact hb
        · exact h2
    · rw [uniq, if_neg hb]
      simp [ih]

theorem nodup_uniq : ∀ l : List String, (uniq l).Nodup := by
  intro l
  induction l with
  | nil => simp [uniq]
  | cons b t ih =>
    by_cases hb : b ∈ t
    · rw [uniq, if_pos hb]; exact ih
    · rw [uniq, if_neg hb]
      exact List.Nodup.cons (fun h => hb (mem_uniq.mp h)) ih

theorem toFinset_uniq (l : List String) : (uniq l).toFinset = l.toFinset := by
  ext a
  simp [List.mem_toFinset, mem_uniq]

theorem dget_map_self {β : Type} (f : String → β) :
    ∀ (l : List String) (a : String),
      dget (l.map fun n => (n, f n)) a = if a ∈ l then some (f a) else none := by
  intro l
  induction l with
  | nil => intro a; simp [dget]
  | cons b t ih =>
    intro a
    by_cases hab : a = b
    · subst hab
      simp [dget]
    · rw [List.map_cons, dget, if_neg hab, ih]
      simp [hab]

theorem dget_eq_none_of_not_mem {β : Type} :
    ∀ (l : List (String × β)) (a : String),
      a ∉ l.map Prod.fst → dget l a = none := by
  intro l
  induction l with
  | nil => intro a _; rfl
  | cons p t ih =>
    intro a ha
    obtain ⟨k, v⟩ := p
    rw [List.map_cons] at ha
    rw [dget, if_neg (fun h => ha (by simp [h]))]
    exact ih a (fun h => ha (List.mem_cons_of_mem _ h))

theorem foldl_step_eq (cb pb : Buckets) :
    ∀ (l : List String) (acc : DeltaRecord),
      l.foldl (step cb pb) acc =
        { metadata := { acc.metadata with
            total_files :=
              acc.metadata.total_files + (l.map fun n => (row_for cb pb n).files).sum
            total_bytes :=
              acc.metadata.total_bytes + (l.map fun n => (row_for cb pb n).bytes).sum
            total_d_files :=
              acc.metadata.total_d_files + (l.map fun n => (row_for cb pb n).d_files).sum
            total_d_bytes :=
              acc.metadata.total_d_bytes + (l.map fun n => (row_for cb pb n).d_bytes).sum }
          buckets := acc.buckets ++ l.map fun n => (n, row_for cb pb n) } := by
  intro l
  induction l with
  | nil => intro acc; simp
  | cons a t ih =>
    intro acc
    rw [List.foldl_cons, ih]
    simp [step, add_assoc]

/-- `compare_snapshots` on a well-formed current snapshot, in closed form:
the bucket list is the union of key lists mapped through `row_for`, the
totals are the corresponding sums, and the time delta is
`now - earlier` with `earlier` defaulted to `now`. -/
theorem compare_snapshots_eq (cur prev : Snapshot) (now : Int) (cb : Buckets)
    (h1 : snapshot_start cur = some now) (h2 : cur.buckets = some cb) :
    compare_snapshots cur prev =
      some ⟨⟨now, now - (snapshot_start prev).getD now,
          ((union_keys cb (prev.buckets.getD [])).map
            fun n => (row_for cb (prev.buckets.getD []) n).files).sum,
          ((union_keys cb (prev.buckets.getD [])).map
            fun n => (row_for cb (prev.buckets.getD []) n).bytes).sum,
          ((union_keys cb (prev.buckets.getD [])).map
            fun n => (row_for cb (prev.buckets.getD []) n).d_files).sum,
          ((union_keys cb (prev.buckets.getD [])).map
            fun n => (row_for cb (prev.buckets.getD []) n).d_bytes).sum⟩,
        (union_keys cb (prev.buckets.getD [])).map
          fun n => (n, row_for cb (prev.buckets.getD []) n)⟩ := by
  unfold compare_snapshots
  rw [h1, h2]
  dsimp only
  rw [foldl_step_eq]
  simp

/-- Inversion: a successful comparison determines the result record in the
closed form of `compare_snapshots_eq`. -/
theorem compare_snapshots_some (cur prev : Snapshot) (rec : DeltaRecord)
    (h : compare_snapshots cur prev = some rec) :
    ∃ now cb, snapshot_start cur = some now ∧ cur.buckets = some cb ∧
      rec = ⟨⟨now, now - (snapshot_start prev).getD now,
          ((union_keys cb (prev.buckets.getD [])).map
            fun n => (row_for cb (prev.buckets.getD []) n).files).sum,
          ((union_keys cb (prev.buckets.getD [])).map
            fun n => (row_for cb (prev.buckets.getD []) n).bytes).sum,
          ((union_keys cb (prev.buckets.getD [])).map
            fun n => (row_for cb (prev.buckets.getD []) n).d_files).sum,
          ((union_keys cb (prev.buckets.getD [])).map
            fun n => (row_for cb (prev.buckets.getD []) n).d_bytes).sum⟩,
        (union_keys cb (prev.buckets.getD [])).map
          fun n => (n, row_for cb (prev.buckets.getD []) n)⟩ := by
  cases hs : snapshot_start cur with
  | some now =>
    cases hb : cur.buckets with
    | some cb =>
      refine ⟨now, cb, rfl, rfl, ?_⟩
      have hc := compare_snapshots_eq cur prev now cb hs hb
      rw [hc] at h
      exact (Option.some_inj.mp h).symm
    | none =>
      unfold compare_snapshots at h
      rw [hs, hb] at h
      simp at h
  | none =>
    unfold compare_snapshots at h
    rw [hs] at h
    cases hb : cur.buckets <;> rw [hb] at h <;> simp at h

/-- C1: the bucket-name key set of the record returned by
`compare_snapshots` is the union of the two snapshots' bucket-name sets;
a bucket present only in `previous` appears with zero current values and
deltas `0 - previous`, and a bucket present only in `current` appears
with `previous` treated as zero. -/
theorem compare_bucket_union (cur prev : Snapshot) (rec : DeltaRecord)
    (h : compare_snapshots cur prev = some rec) :
    (rec.buckets.map Prod.fst).toFinset =
      (bucket_names cur).toFinset ∪ (bucket_names prev).toFinset ∧
    (∀ name, name ∉ bucket_names cur → name ∈ bucket_names prev →
      dget rec.buckets name =
        some ⟨0, 0, 0 - bucket_files prev name, 0 - bucket_bytes prev name⟩) ∧
    (∀ name, name ∈ bucket_names cur → name ∉ bucket_names prev →
      dget rec.buckets name =
        some ⟨bucket_files cur name, bucket_bytes cur name,
          bucket_files cur name, bucket_bytes cur name⟩) := by
  obtain ⟨now, cb, hs, hb, hrec⟩ := compare_snapshots_some cur prev rec h
  subst hrec
  refine ⟨?_, ?_, ?_⟩
  · rw [List.map_map]
    have hcomp :
        (Prod.fst ∘ fun n => (n, row_for cb (prev.buckets.getD []) n)) = id := rfl
    rw [hcomp, List.map_id, union_keys, toFinset_uniq, List.toFinset_append]
    simp [bucket_names, hb]
  · intro name hnc hnp
    have hmem : name ∈ union_keys cb (prev.buckets.getD []) := by
      rw [union_keys, mem_uniq, List.mem_append]
      exact Or.inr hnp
    rw [dget_map_self, if_pos hmem]
    have hcn : dget cb name = none := by
      apply dget_eq_none_of_not_mem
      simpa [bucket_names, hb] using hnc
    simp [row_for, entry_files, entry_bytes, hcn, bucket_files, bucket_bytes]
  · intro name hnc hnp
    have hmem : name ∈ union_keys cb (prev.buckets.getD []) := by
      rw [union_keys, mem_uniq, List.mem_append]
      left
      simpa [bucket_names, hb] using hnc
    rw [dget_map_self, if_pos hmem]
    have hpn : dget (prev.buckets.getD []) name = none := by
      apply dget_eq_none_of_not_mem
      simpa [bucket_names] using hnp
    simp [row_for, entry_files, entry_bytes, hpn, bucket_files, bucket_bytes, hb]

theorem compare_bucket_union_witness :
    (((⟨⟨5, 2, 1, 2, -3, -4⟩,
        [("a", ⟨1, 2, 1, 2⟩), ("b", ⟨0, 0, -4, -6⟩)]⟩ : DeltaRecord).buckets.map
          Prod.fst).toFinset =
      (bucket_names ⟨some ⟨some 5⟩, some [("a", ⟨some 1, some 2⟩)]⟩).toFinset ∪
      (bucket_names ⟨some ⟨some 3⟩, some [("b", ⟨some 4, some 6⟩)]⟩).toFinset) :=
  (compare_bucket_union
    ⟨some ⟨some 5⟩, some [("a", ⟨some 1, some 2⟩)]⟩
    ⟨some ⟨some 3⟩, some [("b", ⟨some 4, some 6⟩)]⟩
    ⟨⟨5, 2, 1, 2, -3, -4⟩, [("a", ⟨1, 2, 1, 2⟩), ("b", ⟨0, 0, -4, -6⟩)]⟩
    (by decide)).1

/-- C2: each of the four aggregate totals stored in the metadata of a
record produced by `compare_snapshots` equals the sum of the corresponding
per-bucket column over all buckets of the record. -/
theorem compare_totals_consistent (cur prev : Snapshot) (rec : DeltaRecord)
    (h : compare_snapshots cur prev = some rec) :
    rec.metadata.total_files = (rec.buckets.map fun p => p.2.files).sum ∧
    rec.metadata.total_bytes = (rec.buckets.map fun p => p.2.bytes).sum ∧
    rec.metadata.total_d_files = (rec.buckets.map fun p => p.2.d_files).sum ∧
    rec.metadata.total_d_bytes = (rec.buckets.map fun p => p.2.d_bytes).sum := by
  obtain ⟨now, cb, hs, hb, hrec⟩ := compare_snapshots_some cur prev rec h
  subst hrec
  refine ⟨?_, ?_, ?_, ?_⟩ <;> rw [List.map_map] <;> rfl

theorem compare_totals_consistent_witness :
    (⟨⟨5, 2, 1, 2, -3, -4⟩,
      [("a", ⟨1, 2, 1, 2⟩), ("b", ⟨0, 0, -4, -6⟩)]⟩ : DeltaRecord).metadata.total_files =
      ((⟨⟨5, 2, 1, 2, -3, -4⟩,
        [("a", ⟨1, 2, 1, 2⟩), ("b", ⟨0, 0, -4, -6⟩)]⟩ : DeltaRecord).buckets.map
          fun p => p.2.files).sum :=
  (compare_totals_consistent
    ⟨some ⟨some 5⟩, some [("a", ⟨some 1, some 2⟩)]⟩
    ⟨some ⟨some 3⟩, some [("b", ⟨some 4, some 6⟩)]⟩
    ⟨⟨5, 2, 1, 2, -3, -4⟩, [("a", ⟨1, 2, 1, 2⟩), ("b", ⟨0, 0, -4, -6⟩)]⟩
    (by decide)).1

/-- C3: comparing a snapshot against the entirely empty previous snapshot
yields `d_files = files` and `d_bytes = bytes` for every bucket of the
record, and a zero time delta. -/
theorem compare_empty_previous (cur : Snapshot) (rec : DeltaRecord)
    (h : compare_snapshots cur empty_snapshot = some rec) :
    (∀ p ∈ rec.buckets, p.2.d_files = p.2.files ∧ p.2.d_bytes = p.2.bytes) ∧
    rec.metadata.delta = 0 := by
  obtain ⟨now, cb, hs, hb, hrec⟩ := compare_snapshots_some cur empty_snapshot rec h
  subst hrec
  constructor
  · intro p hp
    obtain ⟨n, hn, rfl⟩ := List.mem_map.mp hp
    constructor <;> simp [row_for, entry_files, entry_bytes, empty_snapshot, dget]
  · simp [empty_snapshot, snapshot_start]

theorem compare_empty_previous_witness :
    (⟨⟨7, 0, 2, 3, 2, 3⟩, [("a", ⟨2, 3, 2, 3⟩)]⟩ : DeltaRecord).metadata.delta = 0 :=
  (compare_empty_previous
    ⟨some ⟨some 7⟩, some [("a", ⟨some 2, some 3⟩)]⟩
    ⟨⟨7, 0, 2, 3, 2, 3⟩, [("a", ⟨2, 3, 2, 3⟩)]⟩
    (by decide)).2

/-- C4: the specification's end-to-end scenario and its sign-correctness
scenario, evaluated on the embedded `compare_snapshots`. -/
theorem compare_concrete_scenarios :
    compare_snapshots
        ⟨some ⟨some 2000⟩, some [("a", ⟨some 100, some 1048576⟩)]⟩
        ⟨some ⟨some 1000⟩,
          some [("a", ⟨some 90, some 1000000⟩), ("b", ⟨some 3, some 300⟩)]⟩ =
      some ⟨⟨2000, 1000, 100, 1048576, 7, 48276⟩,
        [("a", ⟨100, 1048576, 10, 48576⟩), ("b", ⟨0, 0, -3, -300⟩)]⟩ ∧
    compare_snapshots
        ⟨some ⟨some 0⟩, some [("x", ⟨some 10, some 100⟩)]⟩
        ⟨some ⟨some 0⟩,
          some [("x", ⟨some 7, some 80⟩), ("y", ⟨some 5, some 50⟩)]⟩ =
      some ⟨⟨0, 0, 10, 100, -2, -30⟩,
        [("x", ⟨10, 100, 3, 20⟩), ("y", ⟨0, 0, -5, -50⟩)]⟩ :=
  ⟨by decide, by decide⟩

/-- C9: `compare_snapshots` fails exactly when the current snapshot lacks
`metadata.start` or the top-level `buckets` mapping; in particular an
entirely empty previous snapshot, or a bucket present on only one side,
never causes a failure. -/
theorem compare_error_behavior (cur prev : Snapshot) :
    (compare_snapshots cur prev = none ↔
      snapshot_start cur = none ∨ cur.buckets = none) ∧
    (snapshot_start cur ≠ none → cur.buckets ≠ none →
      (compare_snapshots cur empty_snapshot).isSome ∧
      (compare_snapshots cur prev).isSome) := by
  have main : ∀ q : Snapshot, compare_snapshots cur q = none ↔
      (snapshot_start cur = none ∨ cur.buckets = none) := by
    intro q
    cases hs : snapshot_start cur <;> cases hb : cur.buckets <;>
      simp [compare_snapshots, hs, hb]
  refine ⟨main prev, fun h1 h2 => ⟨?_, ?_⟩⟩
  · rw [Option.isSome_iff_ne_none]
    intro hc
    rcases (main empty_snapshot).mp hc with h | h
    · exact h1 h
    · exact h2 h
  · rw [Option.isSome_iff_ne_none]
    intro hc
    rcases (main prev).mp hc with h | h
    · exact h1 h
    · exact h2 h

theorem compare_error_behavior_witness :
    compare_snapshots ⟨some ⟨some 7⟩, some [("a", ⟨some 2, some 3⟩)]⟩ ⟨none, none⟩ =
        none ↔
      snapshot_start ⟨some ⟨some 7⟩, some [("a", ⟨some 2, some 3⟩)]⟩ = none ∨
      (⟨some ⟨some 7⟩, some [("a", ⟨some 2, some 3⟩)]⟩ : Snapshot).buckets = none :=
  (compare_error_behavior ⟨some ⟨some 7⟩, some [("a", ⟨some 2, some 3⟩)]⟩
    ⟨none, none⟩).1

/-- C10: a bucket entry lacking its `files` or `bytes` field never makes
`compare_snapshots` fail; every missing field is silently defaulted to `0`
in the bucket's row of the record and in the accumulated totals, with no
per-bucket validation even on the current snapshot. -/
theorem compare_missing_fields_default (cur prev : Snapshot) (now : Int)
    (cb : Buckets)
    (h1 : snapshot_start cur = some now) (h2 : cur.buckets = some cb) :
    ∃ rec, compare_snapshots cur prev = some rec ∧
      (∀ name, name ∈ union_keys cb (prev.buckets.getD []) →
        dget rec.buckets name = some
          ⟨((dget cb name).bind BucketEntry.files).getD 0,
           ((dget cb name).bind BucketEntry.bytes).getD 0,
           ((dget cb name).bind BucketEntry.files).getD 0 -
             ((dget (prev.buckets.getD []) name).bind BucketEntry.files).getD 0,
           ((dget cb name).bind BucketEntry.bytes).getD 0 -
             ((dget (prev.buckets.getD []) name).bind BucketEntry.bytes).getD 0⟩) ∧
      rec.metadata.total_files =
        ((union_keys cb (prev.buckets.getD [])).map
          fun n => ((dget cb n).bind BucketEntry.files).getD 0).sum := by
  refine ⟨_, compare_snapshots_eq cur prev now cb h1 h2, ?_, ?_⟩
  · intro name hmem
    rw [dget_map_self, if_pos hmem]
    rfl
  · rfl

theorem compare_missing_fields_default_witness :
    ∃ rec,
      compare_snapshots ⟨some ⟨some 0⟩, some [("m", ⟨none, none⟩)]⟩ ⟨none, none⟩ =
        some rec ∧
      (∀ name, name ∈ union_keys [("m", ⟨none, none⟩)] [] →
        dget rec.buckets name = some
          ⟨((dget [("m", ⟨none, none⟩)] name).bind BucketEntry.files).getD 0,
           ((dget [("m", ⟨none, none⟩)] name).bind BucketEntry.bytes).getD 0,
           ((dget [("m", ⟨none, none⟩)] name).bind BucketEntry.files).getD 0 -
             ((dget ([] : Buckets) name).bind BucketEntry.files).getD 0,
           ((dget [("m", ⟨none, none⟩)] name).bind BucketEntry.bytes).getD 0 -
             ((dget ([] : Buckets) name).bind BucketEntry.bytes).getD 0⟩) ∧
      rec.metadata.total_files =
        ((union_keys [("m", ⟨none, none⟩)] []).map
          fun n => ((dget [("m", ⟨none, none⟩)] n).bind BucketEntry.files).getD 0).sum :=
  compare_missing_fields_default
    ⟨some ⟨some 0⟩, some [("m", ⟨none, none⟩)]⟩ ⟨none, none⟩ 0
    [("m", ⟨none, none⟩)] rfl rfl

/-! ### The formatter: `format_count` and `format_bytes`

`format_count` delegates to `humanize.intcomma` and `format_bytes` to
`humanize.naturalsize(n, binary=True, format=...)`; both library functions
are embedded here from their (humanize 4.x) sources.  The only liberty
taken is in `rhe`: CPython's `"%.1f"` rounds the double closest to the
exact quotient, while `rhe` rounds the exact quotient half-to-even; the
two agree except possibly in the last displayed digit on sub-ulp ties,
which none of the proved properties (signs, digit counts, suffixes)
depend on. -/

/-- Comma grouping on a reversed (least-significant-first) digit list:
a comma after every three characters as long as more follow.  Reversing
the result of `group3 ds.reverse` yields `humanize.intcomma`'s grouping
of the digit string `ds`. -/
def group3 : List Char → List Char
  | [] => []
  | [a] => [a]
  | [a, b] => [a, b]
  | [a, b, c] => [a, b, c]
  | a :: b :: c :: d :: rest => a :: b :: c :: ',' :: group3 (d :: rest)

/-- `humanize.intcomma` on an integer: the sign, then the decimal digits
of the absolute value grouped in threes by commas from the right. -/
def intcomma (n : Int) : String :=
  (if n < 0 then "-" else "") ++
    String.mk ((group3 (Nat.repr n.natAbs).data.reverse).reverse)

/-- `format_count(n, delta)` from `app/report.py`: a `+` prefix when
`delta` is set and `n` is strictly positive, then the comma-grouped
integer. -/
def format_count (n : Int) (delta : Bool) : String :=
  (if delta ∧ 0 < n then "+" else "") ++ intcomma n

/-- The binary magnitude suffixes of `humanize.naturalsize`. -/
def binary_suffixes : List String :=
  ["KiB", "MiB", "GiB", "TiB", "PiB", "EiB", "ZiB", "YiB"]

/-- The suffix scan of `humanize.naturalsize`: starting from
`unit = base ^ 2`, pick the first suffix whose unit exceeds the absolute
value, falling back to the last suffix when none does. -/
def find_unit (a : Nat) : Nat → List String → Nat × String
  | u, [] => (u, "YiB")
  | u, s :: rest =>
    if a < u * 1024 ∨ rest = [] then (u * 1024, s)
    else find_unit a (u * 1024) rest

/-- Round `num / den` to the nearest integer, ties to even (the rounding
of `"%.1f"` applied to the scaled value, see the section comment). -/
def rhe (num den : Nat) : Nat :=
  if 2 * (num % den) < den then num / den
  else if den < 2 * (num % den) then num / den + 1
  else if num / den % 2 = 0 then num / den else num / den + 1

/-- `format_bytes(n, delta)` from `app/report.py`, i.e.
`humanize.naturalsize(n, binary=True, format="%+.1f" if delta else "%.1f")`:
an absolute value of exactly `1` renders as `"%d Byte"`, anything below
the base `1024` as `"%d Bytes"` (both ignoring the `format` string, hence
without a `+` sign and without a decimal), and larger values as the value
scaled into the first fitting binary unit, formatted with one decimal
place and an explicit sign when `delta` is set. -/
def format_bytes (n : Int) (delta : Bool) : String :=
  if n.natAbs = 1 then toString n ++ " Byte"
  else if n.natAbs < 1024 then toString n ++ " Bytes"
  else
    let us := find_unit n.natAbs 1024 binary_suffixes
    let m := rhe (10240 * n.natAbs) us.1
    (if n < 0 then "-" else if delta then "+" else "") ++
      Nat.repr (m / 10) ++ "." ++ Nat.repr (m % 10) ++ " " ++ us.2

theorem data_append (a b : String) : (a ++ b).data = a.data ++ b.data := rfl

theorem empty_append (s : String) : "" ++ s = s := by
  cases s
  rfl

theorem digitChar_isDigit (k : Nat) (h : k < 10) :
    (Nat.digitChar k).isDigit = true := by
  interval_cases k <;> decide

theorem toDigitsCore_digits :
    ∀ (fuel n : Nat) (ds : List Char), (∀ c ∈ ds, c.isDigit = true) →
      ∀ c ∈ Nat.toDigitsCore 10 fuel n ds, c.isDigit = true := by
  intro fuel
  induction fuel with
  | zero =>
    intro n ds hds c hc
    exact hds c hc
  | succ fuel ih =>
    intro n ds hds c hc
    rw [Nat.toDigitsCore] at hc
    have hd : (Nat.digitChar (n % 10)).isDigit = true :=
      digitChar_isDigit _ (Nat.mod_lt _ (by decide))
    have hcons : ∀ x ∈ Nat.digitChar (n % 10) :: ds, x.isDigit = true := by
      intro x hx
      rcases List.mem_cons.mp hx with rfl | hx2
      · exact hd
      · exact hds x hx2
    by_cases h0 : n / 10 = 0
    · rw [if_pos h0] at hc
      exact hcons c hc
    · rw [if_neg h0] at hc
      exact ih (n / 10) _ hcons c hc

theorem repr_digits (m : Nat) : ∀ c ∈ (Nat.repr m).data, c.isDigit = true := by
  intro c hc
  exact toDigitsCore_digits (m + 1) m [] (by simp) c hc

theorem repr_len_one (k : Nat) (h : k < 10) : (Nat.repr k).length = 1 := by
  interval_cases k <;> rfl

theorem group3_filter (p : Char → Bool) (hp : p ',' = false) :
    ∀ l : List Char, (∀ c ∈ l, p c = true) → (group3 l).filter p = l
  | [], _ => by simp [group3]
  | [a], h => by
    have ha := h a (by simp)
    simp [group3, ha]
  | [a, b], h => by
    have ha := h a (by simp)
    have hb := h b (by simp)
    simp [group3, ha, hb]
  | [a, b, c], h => by
    have ha := h a (by simp)
    have hb := h b (by simp)
    have hc := h c (by simp)
    simp [group3, ha, hb, hc]
  | a :: b :: c :: d :: rest, h => by
    have ha := h a (by simp)
    have hb := h b (by simp)
    have hc := h c (by simp)
    have ih := group3_filter p hp (d :: rest) fun x hx => h x (by simp [List.mem_cons.mp hx])
    simp [group3, ha, hb, hc, hp, ih]

theorem digit_keep (c : Char) (h : c.isDigit = true) :
    (!(c == ',' || c == '+')) = true := by
  by_cases h1 : c = ','
  · subst h1
    exact absurd h (by decide)
  by_cases h2 : c = '+'
  · subst h2
    exact absurd h (by decide)
  simp [h1, h2]

theorem intcomma_filter (m : Nat) :
    ((group3 (Nat.repr m).data.reverse).reverse.filter
      fun c => !(c == ',' || c == '+')) = (Nat.repr m).data := by
  have hmem : ∀ c ∈ (Nat.repr m).data.reverse, (!(c == ',' || c == '+')) = true := by
    intro c hc
    exact digit_keep c (repr_digits m c (List.mem_reverse.mp hc))
  rw [List.filter_reverse, group3_filter _ (by decide) _ hmem, List.reverse_reverse]

theorem find_unit_mem :
    ∀ (l : List String) (a u : Nat), l ≠ [] → (find_unit a u l).2 ∈ l
  | [], _, _, h => absurd rfl h
  | s :: rest, a, u, _ => by
    rw [find_unit]
    by_cases hc : a < u * 1024 ∨ rest = []
    · rw [if_pos hc]
      exact List.mem_cons_self _ _
    · rw [if_neg hc]
      have hrest : rest ≠ [] := fun he => hc (Or.inr he)
      exact List.mem_cons_of_mem _ (find_unit_mem rest a (u * 1024) hrest)

theorem repr_count_dot (m : Nat) : List.count '.' (Nat.repr m).data = 0 := by
  rw [List.count_eq_zero]
  intro hmem
  exact absurd (repr_digits m '.' hmem) (by decide)

theorem suffix_count_dot (s : String) (hs : s ∈ binary_suffixes) :
    List.count '.' s.data = 0 := by
  simp only [binary_suffixes, List.mem_cons, List.not_mem_nil, or_false] at hs
  rcases hs with rfl | rfl | rfl | rfl | rfl | rfl | rfl | rfl <;> decide

/-- C6 (confirmed): `format_count` in delta mode puts a `+` in front
exactly when the value is strictly positive, leaves zero unsigned, keeps
the natural minus sign of a negative value, and apart from the optional
`+` prefix and the grouping commas reproduces the plain decimal digits of
the value. -/
theorem format_count_delta_sign (n : Int) :
    ((format_count n true).data.head? = some '+' ↔ 0 < n) ∧
    ((format_count n true).data.head? = some '-' ↔ n < 0) ∧
    (n = 0 → format_count n true = "0") ∧
    (n < 0 → format_count n true = "-" ++ format_count (-n) false) ∧
    (0 < n → format_count n true = "+" ++ format_count n false) ∧
    ((format_count n true).data.filter fun c => !(c == ',' || c == '+')) =
      (toString n).data := by
  have hfalse : ∀ m : Int, ¬ ((false : Bool) ∧ 0 < m) :=
    fun m h => absurd h.1 (by decide)
  cases n with
  | ofNat k =>
    cases k with
    | zero => exact ⟨by decide, by decide, fun _ => by decide, by decide, by decide, by decide⟩
    | succ k2 =>
      have hpos : (0 : Int) < Int.ofNat (k2 + 1) :=
        Int.ofNat_pos.mpr (Nat.succ_pos k2)
      have hnneg : ¬ (Int.ofNat (k2 + 1) < 0) := not_lt.mpr hpos.le
      have hdata : (format_count (Int.ofNat (k2 + 1)) true).data =
          '+' :: (group3 (Nat.repr (k2 + 1)).data.reverse).reverse := by
        rw [format_count, if_pos ⟨rfl, hpos⟩, intcomma, if_neg hnneg, empty_append]
        rfl
      refine ⟨?_, ?_, ?_, ?_, ?_, ?_⟩
      · rw [hdata]
        simp [hpos]
      · rw [hdata]
        simp only [List.head?_cons]
        exact iff_of_false (by decide) hnneg
      · intro h0
        exact absurd (Int.ofNat.inj h0) (Nat.succ_ne_zero k2)
      · intro hlt
        exact absurd hlt hnneg
      · intro _
        rw [format_count, if_pos ⟨rfl, hpos⟩, format_count, if_neg (hfalse _), empty_append]
      · rw [hdata, List.filter_cons, if_neg (by decide)]
        exact intcomma_filter (k2 + 1)
  | negSucc m =>
    have hneg : Int.negSucc m < 0 := Int.negSucc_lt_zero m
    have hnpos : ¬ ((true : Bool) ∧ 0 < Int.negSucc m) :=
      fun h => absurd h.2 (not_lt.mpr hneg.le)
    have hdata : (format_count (Int.negSucc m) true).data =
        '-' :: (group3 (Nat.repr (m + 1)).data.reverse).reverse := by
      rw [format_count, if_neg hnpos, empty_append, intcomma, if_pos hneg]
      rfl
    have hother : format_count (Int.ofNat (m + 1)) false =
        String.mk ((group3 (Nat.repr (m + 1)).data.reverse).reverse) := by
      have hcast : ¬ (Int.ofNat (m + 1) < 0) :=
        not_lt.mpr (show (0 : Int) ≤ Int.ofNat (m + 1) from Int.ofNat_nonneg (m + 1))
      rw [format_count, if_neg (hfalse _), empty_append, intcomma,
        if_neg hcast, empty_append]
      rfl
    refine ⟨?_, ?_, ?_, ?_, ?_, ?_⟩
    · rw [hdata]
      simp only [List.head?_cons]
      exact iff_of_false (by decide) (not_lt.mpr hneg.le)
    · rw [hdata]
      simp [hneg]
    · intro h0
      exact Int.noConfusion h0
    · intro _
      apply String.ext
      rw [hdata, data_append]
      rw [show -Int.negSucc m = Int.ofNat (m + 1) from rfl, hother]
      rfl
    · intro hlt
      exact absurd hlt (not_lt.mpr hneg.le)
    · rw [hdata, List.filter_cons, if_pos (by decide)]
      rw [intcomma_filter (m + 1)]
      rfl

theorem format_count_delta_sign_witness :
    (format_count 3 true).data.head? = some '+' ↔ (0 : Int) < 3 :=
  (format_count_delta_sign 3).1

/-- C5 counterexample: the claim "every strictly positive delta byte size
is rendered with an explicit leading `+`" fails at `n = 5`, which
`format_bytes` renders as `"5 Bytes"` (the sub-base branch of
`humanize.naturalsize` ignores the `%+.1f` format). -/
theorem format_bytes_plus_cex :
    ¬ ∀ n : Int, 0 < n → (format_bytes n true).data.head? = some '+' := by
  intro hall
  have h5 := hall 5 (by decide)
  revert h5
  decide

/-- C5 (amended): for `1024 ≤ |n|` — values that reach a binary magnitude
unit — `format_bytes n true` is rendered as a signed number with exactly
one decimal place and a binary suffix: a `-` sign when `n` is negative and
an explicit `+` otherwise, one single-digit fractional part, and exactly
one `.` in the whole string.  (Values with `|n| < 1024` are rendered as
integer `"%d Byte(s)"` with no `+` sign and no decimal, as the
counterexample shows.) -/
theorem format_bytes_delta_magnitude (n : Int) (h : 1024 ≤ n.natAbs) :
    ∃ i f : Nat, ∃ suf : String, f < 10 ∧ suf ∈ binary_suffixes ∧
      (Nat.repr f).length = 1 ∧
      format_bytes n true =
        (if n < 0 then "-" else "+") ++ Nat.repr i ++ "." ++ Nat.repr f ++
          " " ++ suf ∧
      (format_bytes n true).data.count '.' = 1 := by
  have h1 : ¬ (n.natAbs = 1) := by omega
  have h2 : ¬ (n.natAbs < 1024) := by omega
  refine ⟨rhe (10240 * n.natAbs) (find_unit n.natAbs 1024 binary_suffixes).1 / 10,
    rhe (10240 * n.natAbs) (find_unit n.natAbs 1024 binary_suffixes).1 % 10,
    (find_unit n.natAbs 1024 binary_suffixes).2,
    Nat.mod_lt _ (by decide),
    find_unit_mem binary_suffixes n.natAbs 1024 (by decide),
    repr_len_one _ (Nat.mod_lt _ (by decide)), ?_, ?_⟩
  · rw [format_bytes, if_neg h1, if_neg h2]
    by_cases hn : n < 0 <;> simp [hn]
  · rw [format_bytes, if_neg h1, if_neg h2]
    by_cases hn : n < 0 <;>
      simp [hn, data_append, List.count_append, repr_count_dot,
        suffix_count_dot _ (find_unit_mem binary_suffixes n.natAbs 1024 (by decide))]

theorem format_bytes_delta_magnitude_witness :
    1024 ≤ (1536 : Int).natAbs ∧
    ∃ i f : Nat, ∃ suf : String, f < 10 ∧ suf ∈ binary_suffixes ∧
      (Nat.repr f).length = 1 ∧
      format_bytes 1536 true =
        (if (1536 : Int) < 0 then "-" else "+") ++ Nat.repr i ++ "." ++
          Nat.repr f ++ " " ++ suf ∧
      (format_bytes 1536 true).data.count '.' = 1 :=
  ⟨by decide, format_bytes_delta_magnitude 1536 (by decide)⟩

/-! ### The report renderer: `get_row_html` and `get_html` -/

/-- Stand-in for `humanize.precisedelta`: the claims proved below depend
only on where the summary sentence appears in the report, never on the
text produced for the duration itself. -/
def precisedelta (d : Int) : String :=
  toString d ++ " seconds"

/-- Embedding of `get_row_html` from `app/report.py`: one table row,
shaded when the row index is odd, with the four formatted cells. -/
def get_row_html (label : String) (files d_files bytes d_bytes : Int)
    (row_num : Nat) : String :=
  let numeric := "font-family: monospace; text-align: right;"
  let padding := "padding-left: 0.5em; padding-right: 0.5em;"
  (if row_num % 2 = 0 then "<tr>\n" else "<tr style=\"background-color: #def\">\n") ++
    "\n        <td style=\"" ++ padding ++ "\">" ++ label ++
    "</td>\n        <td style=\"" ++ padding ++ numeric ++ "\">" ++
    format_count files false ++
    "</td>\n        <td style=\"" ++ padding ++ numeric ++ "\">" ++
    format_count d_files true ++
    "</td>\n        <td style=\"" ++ padding ++ numeric ++ "\">" ++
    format_bytes bytes false ++
    "</td>\n        <td style=\"" ++ padding ++ numeric ++ "\">" ++
    format_bytes d_bytes true ++
    "</td>\n        </tr>\n    "

/-- The static table head emitted by `get_html` before the rows. -/
def table_header : String :=
  "\n        <table>\n        <thead>\n        <tr style=\"background-color: #eee\">\n            <th>Bucket</th>\n            <th colspan=\"2\">Files</th>\n            <th colspan=\"2\">Size</th>\n        </tr>\n        </thead>\n        <tbody>\n    "

/-- `data["buckets"][name]` inside the rendering loop.  The loop draws
`name` from the keys of `data["buckets"]`, so the lookup always succeeds
and the default entry is never exercised. -/
def lookup_row (data : DeltaRecord) (name : String) : DeltaBucket :=
  (dget data.buckets name).getD ⟨0, 0, 0, 0⟩

/-- The bucket row emitted for `name` at position `row_num`. -/
def row_html (data : DeltaRecord) (name : String) (row_num : Nat) : String :=
  get_row_html name (lookup_row data name).files (lookup_row data name).d_files
    (lookup_row data name).bytes (lookup_row data name).d_bytes row_num

/-- `sorted(data["buckets"])`: the bucket names in ascending
(code-point lexicographic) order. -/
def sorted_names (data : DeltaRecord) : List String :=
  (data.buckets.map Prod.fst).insertionSort (· ≤ ·)

/-- The final synthesized Total row built from the aggregate totals. -/
def total_row (data : DeltaRecord) (row_num : Nat) : String :=
  get_row_html "<b>Total</b>" data.metadata.total_files
    data.metadata.total_d_files data.metadata.total_bytes
    data.metadata.total_d_bytes row_num

/-- The summary sentence emitted when the time delta is truthy. -/
def summary_html (data : DeltaRecord) : String :=
  "<p>In the " ++ precisedelta data.metadata.delta ++ " leading up to " ++
    toString data.metadata.now ++ ":</p>"

/-- Embedding of `get_html` from `app/report.py`: the optional summary
sentence (a Python `timedelta` is falsy exactly when it is zero), the
table head, one row per bucket name in sorted order with a running row
counter, the Total row, and the closing tags. -/
def get_html (data : DeltaRecord) : String :=
  let body := (sorted_names data).foldl
    (fun acc name => (acc.1 ++ row_html data name acc.2, acc.2 + 1))
    (("", 0) : String × Nat)
  (if data.metadata.delta = 0 then "" else summary_html data) ++ table_header ++
    body.1 ++ total_row data body.2 ++ "</tbody></table>"

/-- Concatenation of a list of strings (the `html += ...` accumulation). -/
def str_concat : List String → String
  | [] => ""
  | s :: rest => s ++ str_concat rest

/-- The report's row sequence: the per-bucket rows, indexed from `0` in
sorted name order, followed by the Total row. -/
def table_rows (data : DeltaRecord) : List String :=
  ((sorted_names data).enumFrom 0).map (fun p => row_html data p.2 p.1) ++
    [total_row data (sorted_names data).length]

/-- The table part of the report: head, all rows, closing tags. -/
def table_html (data : DeltaRecord) : String :=
  table_header ++ str_concat (table_rows data) ++ "</tbody></table>"

theorem empty_data : ("" : String).data = [] := rfl

theorem append_empty (s : String) : s ++ "" = s := by
  apply String.ext
  simp [data_append, empty_data]

theorem str_append_assoc (a b c : String) : a ++ b ++ c = a ++ (b ++ c) := by
  apply String.ext
  simp only [data_append, List.append_assoc]

theorem str_concat_snoc : ∀ (xs : List String) (y : String),
    str_concat (xs ++ [y]) = str_concat xs ++ y := by
  intro xs
  induction xs with
  | nil =>
    intro y
    apply String.ext
    simp [str_concat, data_append, empty_data]
  | cons a t ih =>
    intro y
    rw [List.cons_append, str_concat, ih, str_concat, str_append_assoc]

theorem foldl_rows (data : DeltaRecord) :
    ∀ (l : List String) (s : String) (k : Nat),
      l.foldl (fun acc name => (acc.1 ++ row_html data name acc.2, acc.2 + 1)) (s, k) =
        (s ++ str_concat ((l.enumFrom k).map fun p => row_html data p.2 p.1),
          k + l.length) := by
  intro l
  induction l with
  | nil =>
    intro s k
    simp [str_concat, append_empty]
  | cons a t ih =>
    intro s k
    rw [List.foldl_cons, ih, List.enumFrom_cons, List.map_cons, str_concat]
    rw [str_append_assoc]
    simp [Nat.add_comm, Nat.add_assoc, Nat.add_left_comm]

/-- `get_html` splits into the optional summary followed by the table,
whose body is exactly the concatenation of `table_rows`. -/
theorem get_html_eq (data : DeltaRecord) :
    get_html data =
      (if data.metadata.delta = 0 then "" else summary_html data) ++
        table_html data := by
  simp only [get_html]
  rw [foldl_rows data (sorted_names data) "" 0, table_html, table_rows,
    str_concat_snoc, empty_append]
  simp [str_append_assoc]

/-- C7 (confirmed): the rendered report consists of the optional summary
and the table whose row sequence `table_rows` has exactly one row per
bucket entry of the record — the sorted name list is a permutation of the
record's bucket-name list — in ascending lexicographic name order, with
the synthesized Total row as its final element. -/
theorem report_row_order (data : DeltaRecord) :
    get_html data =
      (if data.metadata.delta = 0 then "" else summary_html data) ++
        table_html data ∧
    List.Perm (sorted_names data) (data.buckets.map Prod.fst) ∧
    List.Sorted (fun a b : String => a ≤ b) (sorted_names data) ∧
    (table_rows data).length = (data.buckets.map Prod.fst).length + 1 ∧
    (table_rows data).getLast? = some (total_row data (sorted_names data).length) := by
  refine ⟨get_html_eq data, List.perm_insertionSort _ _,
    List.sorted_insertionSort _ _, ?_, ?_⟩
  · rw [table_rows]
    simp [(List.perm_insertionSort (α := String) (· ≤ ·) _).length_eq, sorted_names]
  · rw [table_rows]
    exact List.getLast?_concat _

theorem report_row_order_witness :
    (table_rows ⟨⟨0, 5, 1, 2, 3, 4⟩, [("b", ⟨1, 2, 3, 4⟩), ("a", ⟨0, 0, 0, 0⟩)]⟩).getLast? =
      some (total_row ⟨⟨0, 5, 1, 2, 3, 4⟩, [("b", ⟨1, 2, 3, 4⟩), ("a", ⟨0, 0, 0, 0⟩)]⟩
        (sorted_names ⟨⟨0, 5, 1, 2, 3, 4⟩,
          [("b", ⟨1, 2, 3, 4⟩), ("a", ⟨0, 0, 0, 0⟩)]⟩).length) :=
  (report_row_order ⟨⟨0, 5, 1, 2, 3, 4⟩, [("b", ⟨1, 2, 3, 4⟩), ("a", ⟨0, 0, 0, 0⟩)]⟩).2.2.2.2

/-- C8 (confirmed): the summary sentence is omitted entirely when
`metadata.delta` is zero — which is what `compare_snapshots` stores when
there is no previous snapshot — and the report is exactly the summary
followed by the table otherwise. -/
theorem report_summary_presence (data : DeltaRecord) :
    (data.metadata.delta = 0 → get_html data = table_html data) ∧
    (data.metadata.delta ≠ 0 →
      get_html data = summary_html data ++ table_html data) := by
  constructor
  · intro h0
    rw [get_html_eq, if_pos h0, empty_append]
  · intro h0
    rw [get_html_eq, if_neg h0]

theorem report_summary_presence_witness :
    get_html ⟨⟨0, 0, 0, 0, 0, 0⟩, []⟩ = table_html ⟨⟨0, 0, 0, 0, 0, 0⟩, []⟩ :=
  (report_summary_presence ⟨⟨0, 0, 0, 0, 0, 0⟩, []⟩).1 rfl

end S3Tools
